import Mathlib

/-!
Verification of the reading-order recalculation program
(`reorder.py`, functions `extract_features_from_xml` and
`batch_inference_rules`).

The data model and the operations are shallowly embedded: the per-page
ordering pass of `batch_inference_rules` (lines 193-247 of `reorder.py`)
is translated into explicit state passing over the pair of columns
`sequential_order` and `swapped` of the dataframe, and the per-region
feature extraction of `extract_features_from_xml` (lines 53-88) is
translated into an `Except` returning function where the Python
exceptions (ValueError from `min` of an empty sequence,
ZeroDivisionError from `width / height`) become error values.
-/

/-- One row of the feature dataframe, restricted to the columns that the
ordering pass of `batch_inference_rules` reads: the bounding box
(`x_min`, `x_max`, `y_min`, `y_max`), the page side (0 = left,
1 = right) and the region identifier. -/
structure Region where
  rid : Nat
  x_min : Int
  x_max : Int
  y_min : Int
  y_max : Int
  page_side : Nat
deriving DecidableEq, Repr

instance : Inhabited Region := ⟨⟨0, 0, 0, 0, 0, 0⟩⟩

/-- The composite sort key of line 193 of `reorder.py`:
`sort_values(by=[page_side, y_min, x_min])`, as a lexicographic
less-or-equal relation. -/
def keyLe (a b : Region) : Prop :=
  a.page_side < b.page_side ∨
    (a.page_side = b.page_side ∧
      (a.y_min < b.y_min ∨ (a.y_min = b.y_min ∧ a.x_min ≤ b.x_min)))

instance : DecidableRel keyLe := fun a b => by
  unfold keyLe; infer_instance

instance : IsTotal Region keyLe := ⟨fun a b => by unfold keyLe; omega⟩

instance : IsTrans Region keyLe := ⟨fun a b c => by unfold keyLe; omega⟩

/-- The initial sort of line 193: a stable sort by
(`page_side`, `y_min`, `x_min`), modelling the stable pandas lexsort
used for a multi-column `sort_values`. -/
def sortRegions (l : List Region) : List Region :=
  l.insertionSort keyLe

/-- One iteration of the loop of lines 199-243 of `reorder.py` at index
`i`, acting on the state (`sequential_order` column, `swapped` column).
The branch structure mirrors the source: skip when either row is already
marked swapped; one branch for both sides equal to 0, one for both equal
to 1, an else branch that keeps the order; inside a side branch the pair
is swapped when `next.y_max <= cur.y_max and next.y_min >= cur.y_min`
and `next.x_min > cur.x_min or next.x_max < cur.x_max`. -/
def stepAt (regs : List Region) (i : Nat) (st : List Nat × List Bool) :
    List Nat × List Bool :=
  let c := regs.getD i default
  let nx := regs.getD (i + 1) default
  if st.2.getD i false || st.2.getD (i + 1) false then st
  else if c.page_side = nx.page_side ∧ nx.page_side = 0 then
    if nx.y_max ≤ c.y_max ∧ nx.y_min ≥ c.y_min then
      if nx.x_min > c.x_min ∨ nx.x_max < c.x_max then
        ((st.1.set i (i + 1)).set (i + 1) i,
         (st.2.set i true).set (i + 1) true)
      else ((st.1.set i i).set (i + 1) (i + 1), st.2)
    else ((st.1.set i i).set (i + 1) (i + 1), st.2)
  else if c.page_side = nx.page_side ∧ nx.page_side = 1 then
    if nx.y_max ≤ c.y_max ∧ nx.y_min ≥ c.y_min then
      if nx.x_min > c.x_min ∨ nx.x_max < c.x_max then
        ((st.1.set i (i + 1)).set (i + 1) i,
         (st.2.set i true).set (i + 1) true)
      else ((st.1.set i i).set (i + 1) (i + 1), st.2)
    else ((st.1.set i i).set (i + 1) (i + 1), st.2)
  else ((st.1.set i i).set (i + 1) (i + 1), st.2)

/-- `runSteps regs k i st` runs `k` successive iterations of the loop
body starting at index `i`: the translation of
`for i in range(len(features_df) - 1)`. -/
def runSteps (regs : List Region) : Nat → Nat → (List Nat × List Bool) →
    List Nat × List Bool
  | 0, _, st => st
  | k + 1, i, st => runSteps regs k (i + 1) (stepAt regs i st)

/-- The whole pass of lines 196-243: both columns initialised
(`sequential_order = 0`, `swapped = False`), then the loop over
`i in range(n - 1)`. -/
def runPass (regs : List Region) : List Nat × List Bool :=
  runSteps regs (regs.length - 1) 0
    (List.replicate regs.length 0, List.replicate regs.length false)

/-- The final loop of lines 245-247: every row not marked swapped gets
`sequential_order = i`; swapped rows keep the value set by the pass. -/
def finalSeq (regs : List Region) : List Nat :=
  let st := runPass regs
  (List.range regs.length).map
    (fun i => if st.2.getD i false then st.1.getD i 0 else i)

/-- The per-page result of `batch_inference_rules`: each region of the
sorted list paired with its final `sequential_order`. -/
def pageOrder (l : List Region) : List (Region × Nat) :=
  let s := sortRegions l
  s.zip (finalSeq s)

/-- The condition under which the loop body swaps the pair
(`current_box`, `next_box`): both page sides equal and equal to 0 or
to 1, `next.y_max <= cur.y_max`, `next.y_min >= cur.y_min`, and
`next.x_min > cur.x_min or next.x_max < cur.x_max`. -/
def swapCond (c nx : Region) : Prop :=
  c.page_side = nx.page_side ∧ (nx.page_side = 0 ∨ nx.page_side = 1) ∧
    nx.y_max ≤ c.y_max ∧ nx.y_min ≥ c.y_min ∧
    (nx.x_min > c.x_min ∨ nx.x_max < c.x_max)

instance (c nx : Region) : Decidable (swapCond c nx) := by
  unfold swapCond; infer_instance

/-- `isSwapPos regs i` states that the single forward pass swaps the
pair at positions (`i`, `i+1`): the pair is in range, the previous pair
was not swapped (otherwise the `swapped` flag of row `i` makes the loop
skip this pair), and the geometric swap condition holds. -/
def isSwapPos (regs : List Region) : Nat → Bool
  | 0 => decide (1 < regs.length) &&
      decide (swapCond (regs.getD 0 default) (regs.getD 1 default))
  | i + 1 => decide (i + 2 < regs.length) && !isSwapPos regs i &&
      decide (swapCond (regs.getD (i + 1) default) (regs.getD (i + 2) default))

/-- The final `sequential_order` of the region at sorted position `j`:
`j+1` when the pass swaps the pair at `j`, `j-1` when it swaps the pair
at `j-1`, and `j` otherwise. -/
def targetRank (regs : List Region) (j : Nat) : Nat :=
  if isSwapPos regs j then j + 1
  else if 0 < j ∧ isSwapPos regs (j - 1) = true then j - 1
  else j

/-- The `swapped` flag of row `j` after the loop has processed the pairs
at positions `0, ..., i - 1`: the flag is set when the pass swapped the
pair at `j` (at an iteration before `i`) or the pair at `j - 1`. -/
def SwFlag (regs : List Region) (i j : Nat) : Prop :=
  (isSwapPos regs j = true ∧ j < i) ∨
    (0 < j ∧ isSwapPos regs (j - 1) = true ∧ j - 1 < i)

instance (regs : List Region) (i j : Nat) : Decidable (SwFlag regs i j) := by
  unfold SwFlag; infer_instance

/-- Loop invariant of the pass: after the iterations `0, ..., i - 1`
both columns still have one entry per region, the `swapped` column is
described by `SwFlag`, and every flagged row already carries its final
`sequential_order`. -/
def PassInv (regs : List Region) (i : Nat) (st : List Nat × List Bool) : Prop :=
  st.1.length = regs.length ∧ st.2.length = regs.length ∧
    (∀ j, (st.2.getD j false = true ↔ SwFlag regs i j)) ∧
    (∀ j, SwFlag regs i j →
      st.1.getD j 0 = if isSwapPos regs j then j + 1 else j - 1)

/-- One full scan of adjacent pairs finds no pair satisfying the swap
rule. This is the convergence test of the specification (a full scan
completes with no swap). -/
def converged : List Region → Prop
  | c :: nx :: rest => ¬swapCond c nx ∧ converged (nx :: rest)
  | _ => True

instance : DecidablePred converged := fun l => by
  induction l with
  | nil => exact .isTrue trivial
  | cons c rest ih =>
    cases rest with
    | nil => exact .isTrue trivial
    | cons nx rest2 => unfold converged; exact @instDecidableAnd _ _ _ ih

/-- Less-or-equal on the assigned `sequential_order` of two result
rows. -/
def rankLe (p q : Region × Nat) : Prop := p.2 ≤ q.2

instance : DecidableRel rankLe := fun p q => by
  unfold rankLe; infer_instance

/-- The region list read back in output order: the result rows sorted by
their `sequential_order`, projected to the regions. Feeding this list to
the engine again is the second run of the idempotence property. -/
def outputOrder (l : List Region) : List Region :=
  ((pageOrder l).insertionSort rankLe).map Prod.fst

/-- Number of swaps performed by the pass on input `l`. -/
def swapCount (l : List Region) : Nat :=
  (List.range (sortRegions l).length).countP
    (fun i => isSwapPos (sortRegions l) i)

/-- The `sequential_order` assigned to the region with identifier `i`,
if any: the mapping from region id to final order. -/
def rankOf (res : List (Region × Nat)) (i : Nat) : Option Nat :=
  (res.find? (fun p => p.1.rid == i)).map Prod.snd

/-- No two distinct regions of the list share the composite sort key
(`page_side`, `y_min`, `x_min`). When two regions tie on the full key,
the stable sort keeps them in input order, so the result depends on the
insertion order; this predicate rules the ties out. -/
def KeysInj (l : List Region) : Prop :=
  ∀ a ∈ l, ∀ b ∈ l,
    a.page_side = b.page_side → a.y_min = b.y_min → a.x_min = b.x_min → a = b

instance (l : List Region) : Decidable (KeysInj l) := by
  unfold KeysInj; infer_instance

/-- The geometric swap condition exactly as the specification and claim
C1 state it, with a STRICT lower bound on `y_min`
(`r_{i+1}.y_min > r_i.y_min`). Written from the spec text, to be
compared with the code condition `swapCond`, whose bound is the
non-strict `>=`. -/
def specStrictCond (c nx : Region) : Prop :=
  nx.y_max ≤ c.y_max ∧ nx.y_min > c.y_min ∧
    (nx.x_min > c.x_min ∨ nx.x_max < c.x_max)

instance (c nx : Region) : Decidable (specStrictCond c nx) := by
  unfold specStrictCond; infer_instance

/-- The exceptions that the body of `extract_features_from_xml` can
raise while processing one region: ValueError from `min()` over an
empty point list (line 62), ZeroDivisionError from `width / height`
(line 69). -/
inductive ExtractErr where
  | emptyPoints
  | zeroHeight
deriving DecidableEq, Repr

/-- The geometric features computed for one region in lines 62-88 of
`reorder.py`. The float quantities (`aspect_ratio`, the mean used for
`page_side`) are modelled exactly as rationals; the metadata columns
(`structure_type`, the original `index`, the id) are passed through
unchanged by the source and carry no geometry, so they are omitted. -/
structure Features where
  x_min : Int
  y_min : Int
  x_max : Int
  y_max : Int
  width : Int
  height : Int
  aspect_ratio : ℚ
  page_side : Nat
deriving DecidableEq, Repr

/-- The per-region computation of lines 61-88 of
`extract_features_from_xml`. An empty point list makes `min()` raise
(the spec calls this MalformedGeometry); a zero height makes the
division of line 69 raise before `avg_x` and `page_side` are
computed. -/
def extractRegion (bookfold_centre : ℚ) (points : List (Int × Int)) :
    Except ExtractErr Features :=
  match points with
  | [] => .error .emptyPoints
  | p :: ps =>
    let x_min := ps.foldl (fun m q => min m q.1) p.1
    let y_min := ps.foldl (fun m q => min m q.2) p.2
    let x_max := ps.foldl (fun m q => max m q.1) p.1
    let y_max := ps.foldl (fun m q => max m q.2) p.2
    let width := x_max - x_min
    let height := y_max - y_min
    if height = 0 then .error .zeroHeight
    else
      let aspect_ratio : ℚ := (width : ℚ) / (height : ℚ)
      let avg_x : ℚ := (((p :: ps).map Prod.fst).sum : Int) / ((p :: ps).length : ℚ)
      let page_side := if avg_x < bookfold_centre then 0 else 1
      .ok { x_min := x_min, y_min := y_min, x_max := x_max, y_max := y_max,
            width := width, height := height,
            aspect_ratio := aspect_ratio, page_side := page_side }

/-- The loop of line 53 over all regions of a page: each region is
extracted in turn and appended; an exception raised for one region
propagates out of the whole function, so extraction of the page stops
at the first failing region. -/
def extractAll (bookfold_centre : ℚ) :
    List (List (Int × Int)) → Except ExtractErr (List Features)
  | [] => .ok []
  | ps :: rest =>
    match extractRegion bookfold_centre ps with
    | .error e => .error e
    | .ok f =>
      match extractAll bookfold_centre rest with
      | .error e => .error e
      | .ok fs => .ok (f :: fs)

lemma getD_set_self {α : Type} (l : List α) (i : Nat) (x d : α)
    (h : i < l.length) : (l.set i x).getD i d = x := by
  simp [List.getD, List.getElem?_set, h]

lemma getD_set_other {α : Type} (l : List α) (i j : Nat) (x d : α)
    (h : i ≠ j) : (l.set i x).getD j d = l.getD j d := by
  simp [List.getD, List.getElem?_set, h]

lemma getD_replicate_self {α : Type} (n j : Nat) (d : α) :
    (List.replicate n d).getD j d = d := by
  rw [List.getD_eq_getElem?_getD, List.getElem?_replicate]
  split <;> rfl

lemma isSwapPos_zero (regs : List Region) :
    isSwapPos regs 0 = (decide (1 < regs.length) &&
      decide (swapCond (regs.getD 0 default) (regs.getD 1 default))) := rfl

lemma isSwapPos_succ (regs : List Region) (i : Nat) :
    isSwapPos regs (i + 1) = (decide (i + 2 < regs.length) &&
      !isSwapPos regs i &&
      decide (swapCond (regs.getD (i + 1) default)
        (regs.getD (i + 2) default))) := rfl

lemma isSwapPos_bound {regs : List Region} {j : Nat}
    (h : isSwapPos regs j = true) : j + 1 < regs.length := by
  cases j with
  | zero =>
    rw [isSwapPos_zero, Bool.and_eq_true] at h
    exact of_decide_eq_true h.1
  | succ i =>
    rw [isSwapPos_succ, Bool.and_eq_true, Bool.and_eq_true] at h
    exact of_decide_eq_true h.1.1

lemma isSwapPos_cond {regs : List Region} {j : Nat}
    (h : isSwapPos regs j = true) :
    swapCond (regs.getD j default) (regs.getD (j + 1) default) := by
  cases j with
  | zero =>
    rw [isSwapPos_zero, Bool.and_eq_true] at h
    exact of_decide_eq_true h.2
  | succ i =>
    rw [isSwapPos_succ, Bool.and_eq_true] at h
    exact of_decide_eq_true h.2

lemma isSwapPos_succ_false {regs : List Region} {j : Nat}
    (h : isSwapPos regs j = true) : isSwapPos regs (j + 1) = false := by
  rw [isSwapPos_succ, h]
  simp

lemma isSwapPos_eval {regs : List Region} {i : Nat}
    (h1 : i + 1 < regs.length)
    (h2 : ¬(0 < i ∧ isSwapPos regs (i - 1) = true)) :
    (isSwapPos regs i = true ↔
      swapCond (regs.getD i default) (regs.getD (i + 1) default)) := by
  cases i with
  | zero =>
    rw [isSwapPos_zero, Bool.and_eq_true, decide_eq_true_eq, decide_eq_true_eq]
    exact ⟨fun h => h.2, fun h => ⟨h1, h⟩⟩
  | succ k =>
    have hk : isSwapPos regs k = false := by
      cases hb : isSwapPos regs k with
      | false => rfl
      | true => exact absurd ⟨Nat.succ_pos k, by simpa using hb⟩ h2
    rw [isSwapPos_succ, hk]
    simp only [Bool.not_false, Bool.and_true, Bool.true_and, Bool.and_eq_true,
      decide_eq_true_eq]
    exact ⟨fun h => h.2, fun h => ⟨h1, h⟩⟩

lemma stepAt_skip {regs : List Region} {i : Nat} {st : List Nat × List Bool}
    (h : st.2.getD i false = true ∨ st.2.getD (i + 1) false = true) :
    stepAt regs i st = st := by
  unfold stepAt
  rcases h with h | h <;> rw [h] <;> simp

lemma stepAt_swap {regs : List Region} {i : Nat} {st : List Nat × List Bool}
    (h1 : st.2.getD i false = false) (h2 : st.2.getD (i + 1) false = false)
    (hc : swapCond (regs.getD i default) (regs.getD (i + 1) default)) :
    stepAt regs i st =
      ((st.1.set i (i + 1)).set (i + 1) i,
       (st.2.set i true).set (i + 1) true) := by
  unfold stepAt
  rw [h1, h2]
  obtain ⟨hside, hzo, hymax, hymin, hx⟩ := hc
  simp only [List.getD_eq_getElem?_getD] at hside hymax hymin hx
  rcases hzo with h0 | h0 <;>
    simp only [List.getD_eq_getElem?_getD] at h0 <;>
    simp [hside, h0, hymax, hymin, hx]

lemma stepAt_keep {regs : List Region} {i : Nat} {st : List Nat × List Bool}
    (h1 : st.2.getD i false = false) (h2 : st.2.getD (i + 1) false = false)
    (hc : ¬swapCond (regs.getD i default) (regs.getD (i + 1) default)) :
    stepAt regs i st = ((st.1.set i i).set (i + 1) (i + 1), st.2) := by
  unfold stepAt
  rw [h1, h2]
  simp only [Bool.or_self, Bool.false_eq_true, if_false]
  unfold swapCond at hc
  split_ifs <;> first
    | rfl
    | tauto

lemma SwFlag_succ (regs : List Region) (i j : Nat) :
    SwFlag regs (i + 1) j ↔
      SwFlag regs i j ∨ (isSwapPos regs i = true ∧ (j = i ∨ j = i + 1)) := by
  unfold SwFlag
  constructor
  · rintro (⟨hs, hj⟩ | ⟨h0, hs, hj⟩)
    · rcases Nat.lt_succ_iff_lt_or_eq.mp hj with hj' | rfl
      · exact Or.inl (Or.inl ⟨hs, hj'⟩)
      · exact Or.inr ⟨hs, Or.inl rfl⟩
    · rcases Nat.lt_succ_iff_lt_or_eq.mp hj with hj' | hj'
      · exact Or.inl (Or.inr ⟨h0, hs, hj'⟩)
      · have hji : j = i + 1 := by omega
        subst hji
        have hred : (i + 1 : Nat) - 1 = i := by omega
        rw [hred] at hs
        exact Or.inr ⟨hs, Or.inr rfl⟩
  · rintro (h | ⟨hs, rfl | rfl⟩)
    · rcases h with ⟨hs, hj⟩ | ⟨h0, hs, hj⟩
      · exact Or.inl ⟨hs, by omega⟩
      · exact Or.inr ⟨h0, hs, by omega⟩
    · exact Or.inl ⟨hs, by omega⟩
    · refine Or.inr ⟨by omega, ?_, by omega⟩
      have hred : (i + 1 : Nat) - 1 = i := by omega
      rw [hred]
      exact hs

lemma SwFlag_succ_of_not {regs : List Region} {i j : Nat}
    (hnoti : isSwapPos regs i = false) :
    (SwFlag regs (i + 1) j ↔ SwFlag regs i j) := by
  rw [SwFlag_succ]
  constructor
  · rintro (h | ⟨hs, _⟩)
    · exact h
    · rw [hnoti] at hs
      cases hs
  · exact Or.inl

lemma SwFlag_succ_ne {regs : List Region} {i j : Nat}
    (hji : j ≠ i) (hji1 : j ≠ i + 1) :
    (SwFlag regs (i + 1) j ↔ SwFlag regs i j) := by
  rw [SwFlag_succ]
  constructor
  · rintro (h | ⟨_, rfl | rfl⟩)
    · exact h
    · exact absurd rfl hji
    · exact absurd rfl hji1
  · exact Or.inl

lemma not_SwFlag_self_next (regs : List Region) (i : Nat) :
    ¬SwFlag regs i (i + 1) := by
  rintro (⟨_, hj⟩ | ⟨_, _, hj⟩) <;> omega

lemma passInv_step {regs : List Region} {i : Nat} {st : List Nat × List Bool}
    (hi : i + 1 < regs.length) (h : PassInv regs i st) :
    PassInv regs (i + 1) (stepAt regs i st) := by
  obtain ⟨hl1, hl2, hflag, hseq⟩ := h
  have hfl_next : st.2.getD (i + 1) false = false := by
    cases hb : st.2.getD (i + 1) false with
    | false => rfl
    | true => exact absurd ((hflag (i + 1)).mp hb) (not_SwFlag_self_next regs i)
  cases hb : st.2.getD i false with
  | true =>
    have hlock : 0 < i ∧ isSwapPos regs (i - 1) = true := by
      rcases (hflag i).mp hb with ⟨_, hj⟩ | ⟨h0, hs, _⟩
      · omega
      · exact ⟨h0, hs⟩
    have hnoti : isSwapPos regs i = false := by
      obtain ⟨h0, hs⟩ := hlock
      have hieq : i - 1 + 1 = i := by omega
      have := isSwapPos_succ_false hs
      rwa [hieq] at this
    rw [stepAt_skip (Or.inl hb)]
    refine ⟨hl1, hl2, ?_, ?_⟩
    · intro j
      rw [SwFlag_succ_of_not hnoti]
      exact hflag j
    · intro j hj
      exact hseq j ((SwFlag_succ_of_not hnoti).mp hj)
  | false =>
    have hnl : ¬(0 < i ∧ isSwapPos regs (i - 1) = true) := by
      rintro ⟨h0, hs⟩
      have := (hflag i).mpr (Or.inr ⟨h0, hs, by omega⟩)
      rw [hb] at this
      cases this
    have heval := isSwapPos_eval hi hnl
    have hnfi : ¬SwFlag regs i i := by
      rintro (⟨_, hj⟩ | ⟨h0, hs, _⟩)
      · omega
      · exact hnl ⟨h0, hs⟩
    by_cases hc : swapCond (regs.getD i default) (regs.getD (i + 1) default)
    · have hsp : isSwapPos regs i = true := heval.mpr hc
      have hspn : isSwapPos regs (i + 1) = false := isSwapPos_succ_false hsp
      rw [stepAt_swap hb hfl_next hc]
      have hb1 : i < st.1.length := by omega
      have hb1' : i + 1 < st.1.length := by omega
      have hb2 : i < st.2.length := by omega
      have hb2' : i + 1 < st.2.length := by omega
      refine ⟨by simpa using hl1, by simpa using hl2, ?_, ?_⟩
      · intro j
        by_cases hji : j = i
        · subst hji
          rw [getD_set_other _ _ _ _ _ (by omega),
            getD_set_self _ _ _ _ hb2]
          simp only [true_iff]
          rw [SwFlag_succ]
          exact Or.inr ⟨hsp, Or.inl rfl⟩
        · by_cases hji1 : j = i + 1
          · subst hji1
            rw [getD_set_self _ _ _ _ (by simpa using hb2')]
            simp only [true_iff]
            rw [SwFlag_succ]
            exact Or.inr ⟨hsp, Or.inr rfl⟩
          · rw [getD_set_other _ _ _ _ _ (fun hx => hji1 hx.symm),
              getD_set_other _ _ _ _ _ (fun hx => hji hx.symm)]
            rw [SwFlag_succ_ne hji hji1]
            exact hflag j
      · intro j hj
        by_cases hji : j = i
        · subst hji
          rw [getD_set_other _ _ _ _ _ (by omega),
            getD_set_self _ _ _ _ hb1, hsp]
          simp
        · by_cases hji1 : j = i + 1
          · subst hji1
            rw [getD_set_self _ _ _ _ (by simpa using hb1'), hspn]
            simp
          · rw [getD_set_other _ _ _ _ _ (fun hx => hji1 hx.symm),
              getD_set_other _ _ _ _ _ (fun hx => hji hx.symm)]
            exact hseq j ((SwFlag_succ_ne hji hji1).mp hj)
    · have hsp : isSwapPos regs i = false := by
        cases hx : isSwapPos regs i with
        | false => rfl
        | true => exact absurd (heval.mp hx) hc
      rw [stepAt_keep hb hfl_next hc]
      have hb1 : i < st.1.length := by omega
      refine ⟨by simpa using hl1, hl2, ?_, ?_⟩
      · intro j
        rw [SwFlag_succ_of_not hsp]
        exact hflag j
      · intro j hj
        have hj' := (SwFlag_succ_of_not hsp).mp hj
        have hji : j ≠ i := by
          rintro rfl
          exact hnfi hj'
        have hji1 : j ≠ i + 1 := by
          rintro rfl
          exact not_SwFlag_self_next regs i hj'
        rw [getD_set_other _ _ _ _ _ (fun hx => hji1 hx.symm),
          getD_set_other _ _ _ _ _ (fun hx => hji hx.symm)]
        exact hseq j hj'

lemma passInv_init (regs : List Region) :
    PassInv regs 0
      (List.replicate regs.length 0, List.replicate regs.length false) := by
  refine ⟨by simp, by simp, ?_, ?_⟩
  · intro j
    rw [getD_replicate_self]
    constructor
    · intro hx
      cases hx
    · rintro (⟨_, hj⟩ | ⟨_, _, hj⟩) <;> omega
  · rintro j (⟨_, hj⟩ | ⟨_, _, hj⟩) <;> omega

lemma passInv_run {regs : List Region} :
    ∀ (k i : Nat) (st : List Nat × List Bool),
      i + k ≤ regs.length - 1 → PassInv regs i st →
      PassInv regs (i + k) (runSteps regs k i st) := by
  intro k
  induction k with
  | zero => intro i st _ h; simpa using h
  | succ k ih =>
    intro i st hk h
    have hi : i + 1 < regs.length := by omega
    have h1 := passInv_step hi h
    have h2 := ih (i + 1) (stepAt regs i st) (by omega) h1
    rw [show i + (k + 1) = i + 1 + k by omega]
    exact h2

lemma passInv_final (regs : List Region) :
    PassInv regs (regs.length - 1) (runPass regs) := by
  have := passInv_run (regs.length - 1) 0
    (List.replicate regs.length 0, List.replicate regs.length false)
    (by omega) (passInv_init regs)
  simpa [runPass] using this

lemma SwFlag_last_iff {regs : List Region} {j : Nat} :
    SwFlag regs (regs.length - 1) j ↔
      (isSwapPos regs j = true ∨ (0 < j ∧ isSwapPos regs (j - 1) = true)) := by
  constructor
  · rintro (⟨hs, _⟩ | ⟨h0, hs, _⟩)
    · exact Or.inl hs
    · exact Or.inr ⟨h0, hs⟩
  · rintro (hs | ⟨h0, hs⟩)
    · have := isSwapPos_bound hs
      exact Or.inl ⟨hs, by omega⟩
    · have := isSwapPos_bound hs
      exact Or.inr ⟨h0, hs, by omega⟩

/-- Characterisation of the whole pass: after the final loop of lines
245-247 the `sequential_order` column is exactly `targetRank` at every
position. -/
lemma finalSeq_eq (regs : List Region) :
    finalSeq regs = (List.range regs.length).map (targetRank regs) := by
  unfold finalSeq
  apply List.map_congr_left
  intro j hj
  have hjn : j < regs.length := List.mem_range.mp hj
  obtain ⟨hl1, hl2, hflag, hseq⟩ := passInv_final regs
  by_cases hf : SwFlag regs (regs.length - 1) j
  · have hbt : (runPass regs).2.getD j false = true := (hflag j).mpr hf
    rw [hbt]
    simp only [if_true]
    rw [hseq j hf]
    unfold targetRank
    rcases SwFlag_last_iff.mp hf with hs | ⟨h0, hs⟩
    · rw [hs]
      simp
    · have hns : isSwapPos regs j = false := by
        cases hx : isSwapPos regs j with
        | false => rfl
        | true =>
          have := isSwapPos_succ_false hs
          rw [show j - 1 + 1 = j by omega] at this
          rw [hx] at this
          cases this
      rw [hns]
      simp [h0, hs]
  · have hbt : (runPass regs).2.getD j false = false := by
      cases hx : (runPass regs).2.getD j false with
      | false => rfl
      | true => exact absurd ((hflag j).mp hx) hf
    rw [hbt]
    simp only [Bool.false_eq_true, if_false]
    unfold targetRank
    have hns : isSwapPos regs j = false := by
      cases hx : isSwapPos regs j with
      | false => rfl
      | true => exact absurd (SwFlag_last_iff.mpr (Or.inl hx)) hf
    have hns' : ¬(0 < j ∧ isSwapPos regs (j - 1) = true) := by
      rintro ⟨h0, hs⟩
      exact hf (SwFlag_last_iff.mpr (Or.inr ⟨h0, hs⟩))
    rw [hns]
    simp [hns']

lemma targetRank_lt {regs : List Region} {j : Nat} (hj : j < regs.length) :
    targetRank regs j < regs.length := by
  unfold targetRank
  split_ifs with h1 h2
  · exact isSwapPos_bound h1
  · omega
  · exact hj

lemma targetRank_of_swap {regs : List Region} {j : Nat}
    (hs : isSwapPos regs j = true) : targetRank regs j = j + 1 := by
  unfold targetRank
  rw [if_pos hs]

lemma targetRank_of_prev {regs : List Region} {j : Nat}
    (hns : isSwapPos regs j = false) (h0 : 0 < j)
    (hs : isSwapPos regs (j - 1) = true) : targetRank regs j = j - 1 := by
  unfold targetRank
  rw [if_neg (by rw [hns]; exact fun hx => by cases hx), if_pos ⟨h0, hs⟩]

lemma targetRank_of_none {regs : List Region} {j : Nat}
    (hns : isSwapPos regs j = false)
    (h : ¬(0 < j ∧ isSwapPos regs (j - 1) = true)) : targetRank regs j = j := by
  unfold targetRank
  rw [if_neg (by rw [hns]; exact fun hx => by cases hx), if_neg h]

lemma targetRank_invol (regs : List Region) (j : Nat) :
    targetRank regs (targetRank regs j) = j := by
  cases h1 : isSwapPos regs j with
  | true =>
    rw [targetRank_of_swap h1]
    have hn : isSwapPos regs (j + 1) = false := isSwapPos_succ_false h1
    rw [targetRank_of_prev hn (by omega) (by simpa using h1)]
    omega
  | false =>
    by_cases h2 : 0 < j ∧ isSwapPos regs (j - 1) = true
    · obtain ⟨h0, hs⟩ := h2
      rw [targetRank_of_prev h1 h0 hs, targetRank_of_swap hs]
      omega
    · rw [targetRank_of_none h1 h2, targetRank_of_none h1 h2]

lemma targetRank_side {regs : List Region} (j : Nat) :
    (regs.getD (targetRank regs j) default).page_side =
      (regs.getD j default).page_side := by
  cases h1 : isSwapPos regs j with
  | true =>
    rw [targetRank_of_swap h1]
    exact ((isSwapPos_cond h1).1).symm
  | false =>
    by_cases h2 : 0 < j ∧ isSwapPos regs (j - 1) = true
    · obtain ⟨h0, hs⟩ := h2
      rw [targetRank_of_prev h1 h0 hs]
      have := (isSwapPos_cond hs).1
      rw [show j - 1 + 1 = j by omega] at this
      exact this
    · rw [targetRank_of_none h1 h2]

lemma finalSeq_length (regs : List Region) :
    (finalSeq regs).length = regs.length := by
  rw [finalSeq_eq]
  simp

lemma finalSeq_getD {regs : List Region} {j : Nat} (hj : j < regs.length) :
    (finalSeq regs).getD j 0 = targetRank regs j := by
  rw [finalSeq_eq, List.getD_eq_getElem?_getD]
  rw [List.getElem?_map]
  rw [List.getElem?_range hj]
  rfl

lemma targetRank_injective (regs : List Region) :
    Function.Injective (targetRank regs) := by
  intro a b hab
  rw [← targetRank_invol regs a, hab, targetRank_invol]

lemma finalSeq_perm (regs : List Region) :
    (finalSeq regs).Perm (List.range regs.length) := by
  rw [finalSeq_eq]
  refine (List.perm_ext_iff_of_nodup
    (List.Nodup.map (targetRank_injective regs) (List.nodup_range _))
    (List.nodup_range _)).mpr ?_
  intro a
  simp only [List.mem_map, List.mem_range]
  constructor
  · rintro ⟨j, hj, rfl⟩
    exact targetRank_lt hj
  · intro ha
    exact ⟨targetRank regs a, targetRank_lt ha, targetRank_invol regs a⟩

lemma sortRegions_perm (l : List Region) : (sortRegions l).Perm l :=
  List.perm_insertionSort keyLe l

lemma sortRegions_sorted (l : List Region) :
    List.Sorted keyLe (sortRegions l) :=
  List.sorted_insertionSort keyLe l

lemma sortRegions_length (l : List Region) :
    (sortRegions l).length = l.length :=
  (sortRegions_perm l).length_eq

lemma keyLe_side {a b : Region} (h : keyLe a b) :
    a.page_side ≤ b.page_side := by
  unfold keyLe at h
  omega

lemma sorted_side_mono {l : List Region} {a b : Nat}
    (hb : b < (sortRegions l).length) (hab : a ≤ b) :
    ((sortRegions l).getD a default).page_side ≤
      ((sortRegions l).getD b default).page_side := by
  rcases Nat.lt_or_ge a b with hlt | hge
  · have hp := List.pairwise_iff_getElem.mp (sortRegions_sorted l)
    have := hp a b (by omega) hb hlt
    rw [List.getD_eq_getElem _ _ (by omega : a < (sortRegions l).length),
      List.getD_eq_getElem _ _ hb]
    exact keyLe_side this
  · have hab' : a = b := by omega
    rw [hab']

lemma pageOrder_entry {l : List Region} {p : Region × Nat}
    (h : p ∈ pageOrder l) :
    ∃ j, j < (sortRegions l).length ∧
      (sortRegions l).getD j default = p.1 ∧
      p.2 = targetRank (sortRegions l) j := by
  unfold pageOrder at h
  obtain ⟨j, hj, hget⟩ := List.mem_iff_getElem.mp h
  rw [List.length_zip, finalSeq_length] at hj
  have hjs : j < (sortRegions l).length := by omega
  refine ⟨j, hjs, ?_, ?_⟩
  · rw [List.getD_eq_getElem _ _ hjs]
    rw [List.getElem_zip] at hget
    rw [← hget]
  · rw [List.getElem_zip] at hget
    have hjf : j < (finalSeq (sortRegions l)).length := by
      rw [finalSeq_length]
      omega
    have h2 : (finalSeq (sortRegions l)).get ⟨j, hjf⟩ = p.2 := by
      rw [List.get_eq_getElem, ← hget]
    rw [← h2, List.get_eq_getElem, ← List.getD_eq_getElem _ 0, finalSeq_getD hjs]

lemma keyLe_antisymm_key {a b : Region} (h1 : keyLe a b) (h2 : keyLe b a) :
    a.page_side = b.page_side ∧ a.y_min = b.y_min ∧ a.x_min = b.x_min := by
  unfold keyLe at h1 h2
  omega

lemma sorted_eq_of_perm :
    ∀ l₁ l₂ : List Region, l₁.Perm l₂ →
      List.Sorted keyLe l₁ → List.Sorted keyLe l₂ → KeysInj l₁ → l₁ = l₂ := by
  intro l₁
  induction l₁ with
  | nil =>
    intro l₂ hp _ _ _
    exact (List.Perm.eq_nil hp.symm).symm
  | cons a t ih =>
    intro l₂ hp h1 h2 hk
    cases l₂ with
    | nil =>
      have := hp.length_eq
      simp at this
    | cons b t₂ =>
      have hab : a = b := by
        rcases List.mem_cons.mp (hp.mem_iff.mp (List.mem_cons_self a t)) with heq | hat2
        · exact heq
        · have hba : keyLe b a := (List.pairwise_cons.mp h2).1 a hat2
          rcases List.mem_cons.mp (hp.symm.mem_iff.mp (List.mem_cons_self b t₂)) with heq' | hbt
          · exact heq'.symm
          · have hab' : keyLe a b := (List.pairwise_cons.mp h1).1 b hbt
            have hkeys := keyLe_antisymm_key hab' hba
            exact hk a (List.mem_cons_self a t) b
              (List.mem_cons_of_mem a hbt) hkeys.1 hkeys.2.1 hkeys.2.2
      subst hab
      have ht : t.Perm t₂ := hp.cons_inv
      rw [ih t₂ ht (List.pairwise_cons.mp h1).2 (List.pairwise_cons.mp h2).2
        (fun x hx y hy => hk x (List.mem_cons_of_mem a hx) y
          (List.mem_cons_of_mem a hy))]

lemma sortRegions_eq_of_perm {l l' : List Region} (hp : l.Perm l')
    (hk : KeysInj l) : sortRegions l = sortRegions l' := by
  apply sorted_eq_of_perm _ _
    ((sortRegions_perm l).trans (hp.trans (sortRegions_perm l').symm))
    (sortRegions_sorted l) (sortRegions_sorted l')
  intro x hx y hy
  exact hk x ((sortRegions_perm l).mem_iff.mp hx)
    y ((sortRegions_perm l).mem_iff.mp hy)

lemma pageOrder_eq_of_perm {l l' : List Region} (hp : l.Perm l')
    (hk : KeysInj l) : pageOrder l = pageOrder l' := by
  unfold pageOrder
  rw [sortRegions_eq_of_perm hp hk]

lemma map_fst_pageOrder (l : List Region) :
    (pageOrder l).map Prod.fst = sortRegions l := by
  unfold pageOrder
  apply List.map_fst_zip
  rw [finalSeq_length]

lemma outputOrder_perm (l : List Region) : (outputOrder l).Perm l := by
  unfold outputOrder
  have h1 : (((pageOrder l).insertionSort rankLe).map Prod.fst).Perm
      ((pageOrder l).map Prod.fst) :=
    (List.perm_insertionSort rankLe _).map Prod.fst
  rw [map_fst_pageOrder] at h1
  exact h1.trans (sortRegions_perm l)

lemma swap_final_ranks {t : List Region} {i : Nat}
    (hsp : isSwapPos t i = true) :
    (finalSeq t).getD i 0 = i + 1 ∧ (finalSeq t).getD (i + 1) 0 = i := by
  have hb := isSwapPos_bound hsp
  constructor
  · rw [finalSeq_getD (by omega), targetRank_of_swap hsp]
  · rw [finalSeq_getD hb,
      targetRank_of_prev (isSwapPos_succ_false hsp) (by omega) (by simpa using hsp)]
    omega

lemma swapCount_eq_of_sort_eq {l l' : List Region}
    (h : sortRegions l = sortRegions l') : swapCount l = swapCount l' := by
  unfold swapCount
  rw [h]

/-- C1 (counterexample): the claim says a swap is performed exactly when
the strict condition (with `y_min` strictly greater) holds. At the
concrete input A = bbox(0,0,400,200), B = bbox(50,0,150,150), both on
side 0, the strict condition is false (equal `y_min`), yet the code
swaps the pair: A receives order 1 and B order 0. So the claim as
stated is false. -/
theorem C1_counterexample :
    ¬specStrictCond ⟨1, 0, 400, 0, 200, 0⟩ ⟨2, 50, 150, 0, 150, 0⟩ ∧
    pageOrder [⟨1, 0, 400, 0, 200, 0⟩, ⟨2, 50, 150, 0, 150, 0⟩] =
      [(⟨1, 0, 400, 0, 200, 0⟩, 1), (⟨2, 50, 150, 0, 150, 0⟩, 0)] := by
  decide

/-- C1 (amended): during the single pass, the pair at sorted positions
(`i`, `i+1`) ends with exchanged order values (`i+1` and `i`) exactly
when neither region was already swapped by the previous pair and the
code condition holds: same page side (0 or 1),
`next.y_max <= cur.y_max`, `next.y_min >= cur.y_min` (non-strict), and
`next.x_min > cur.x_min or next.x_max < cur.x_max`. -/
theorem C1_swap_iff (l : List Region) (i : Nat)
    (hi : i + 1 < (sortRegions l).length) :
    ((finalSeq (sortRegions l)).getD i 0 = i + 1 ∧
      (finalSeq (sortRegions l)).getD (i + 1) 0 = i) ↔
    (¬(0 < i ∧ isSwapPos (sortRegions l) (i - 1) = true) ∧
      swapCond ((sortRegions l).getD i default)
        ((sortRegions l).getD (i + 1) default)) := by
  constructor
  · rintro ⟨h1, _⟩
    rw [finalSeq_getD (by omega)] at h1
    have hsp : isSwapPos (sortRegions l) i = true := by
      cases hx : isSwapPos (sortRegions l) i with
      | true => rfl
      | false =>
        by_cases h2 : 0 < i ∧ isSwapPos (sortRegions l) (i - 1) = true
        · rw [targetRank_of_prev hx h2.1 h2.2] at h1
          omega
        · rw [targetRank_of_none hx h2] at h1
          omega
    refine ⟨?_, isSwapPos_cond hsp⟩
    rintro ⟨h0, hsprev⟩
    have hfalse : isSwapPos (sortRegions l) i = false := by
      have := isSwapPos_succ_false hsprev
      rwa [show i - 1 + 1 = i by omega] at this
    rw [hfalse] at hsp
    cases hsp
  · rintro ⟨hnl, hc⟩
    exact swap_final_ranks ((isSwapPos_eval hi hnl).mpr hc)

theorem C1_swap_iff_witness :
    (finalSeq (sortRegions
      [⟨1, 0, 400, 0, 200, 0⟩, ⟨2, 50, 150, 50, 150, 0⟩])).getD 0 0 = 1 ∧
    (finalSeq (sortRegions
      [⟨1, 0, 400, 0, 200, 0⟩, ⟨2, 50, 150, 50, 150, 0⟩])).getD 1 0 = 0 :=
  (C1_swap_iff [⟨1, 0, 400, 0, 200, 0⟩, ⟨2, 50, 150, 50, 150, 0⟩] 0
    (by decide)).mpr ⟨by decide, by decide⟩

/-- C2 (counterexample): the claim says the scan restarts after every
swap and is repeated until a full scan completes with no swap, so the
final order would contain no adjacent pair satisfying the swap rule. At
the concrete input A = bbox(0,0,400,200), B = bbox(50,50,350,150),
C = bbox(100,60,300,140), all on side 0, the produced final order is
B, A, C and the adjacent pair (A, C) still satisfies the swap rule
(with both the non-strict code bound and the strict spec bound): no
swap-free full scan was ever reached. -/
theorem C2_counterexample :
    ¬converged (outputOrder [⟨1, 0, 400, 0, 200, 0⟩,
      ⟨2, 50, 350, 50, 150, 0⟩, ⟨3, 100, 300, 60, 140, 0⟩]) := by
  decide

/-- C2 (amended): the engine performs a single forward pass, with no
restart and no repetition: the final `sequential_order` of the region
at sorted position `j` is `j+1` when the greedy single-pass swap
predicate fires at `j`, `j-1` when it fired at `j-1`, and `j`
otherwise; once a pair swaps, both regions are locked and are never
compared again. -/
theorem C2_single_pass (l : List Region) :
    finalSeq (sortRegions l) =
      (List.range (sortRegions l).length).map (targetRank (sortRegions l)) :=
  finalSeq_eq (sortRegions l)

/-- C3 (counterexample): the claim says two same-side regions with
identical vertical extents and non-overlapping x ranges are never
swapped and keep their initial order. At the concrete input
A with x range 0..100 and B with x range 200..300, both with
y range 0..100 and side 0,
the code swaps the pair: the result is not the preserved order
(A, 0), (B, 1) but the reversed (A, 1), (B, 0). -/
theorem C3_counterexample :
    pageOrder [⟨1, 0, 100, 0, 100, 0⟩, ⟨2, 200, 300, 0, 100, 0⟩] ≠
      [(⟨1, 0, 100, 0, 100, 0⟩, 0), (⟨2, 200, 300, 0, 100, 0⟩, 1)] ∧
    pageOrder [⟨1, 0, 100, 0, 100, 0⟩, ⟨2, 200, 300, 0, 100, 0⟩] =
      [(⟨1, 0, 100, 0, 100, 0⟩, 1), (⟨2, 200, 300, 0, 100, 0⟩, 0)] := by
  decide

/-- C3 (amended): an adjacent same-side pair with identical vertical
extents and disjoint x ranges (the earlier region entirely to the left)
that is not locked by a preceding swap DOES trigger the swap rule: the
non-strict `y_min >=` comparison of the code accepts the equal vertical
extents, and the pair ends with its order reversed. -/
theorem C3_side_by_side (l : List Region) (i : Nat)
    (hi : i + 1 < (sortRegions l).length)
    (hside : ((sortRegions l).getD i default).page_side =
      ((sortRegions l).getD (i + 1) default).page_side)
    (hzo : ((sortRegions l).getD (i + 1) default).page_side = 0 ∨
      ((sortRegions l).getD (i + 1) default).page_side = 1)
    (hymin : ((sortRegions l).getD i default).y_min =
      ((sortRegions l).getD (i + 1) default).y_min)
    (hymax : ((sortRegions l).getD i default).y_max =
      ((sortRegions l).getD (i + 1) default).y_max)
    (hbox : ((sortRegions l).getD i default).x_min ≤
      ((sortRegions l).getD i default).x_max)
    (hdisj : ((sortRegions l).getD i default).x_max <
      ((sortRegions l).getD (i + 1) default).x_min)
    (hnl : ¬(0 < i ∧ isSwapPos (sortRegions l) (i - 1) = true)) :
    (finalSeq (sortRegions l)).getD i 0 = i + 1 ∧
      (finalSeq (sortRegions l)).getD (i + 1) 0 = i := by
  have hc : swapCond ((sortRegions l).getD i default)
      ((sortRegions l).getD (i + 1) default) := by
    refine ⟨hside, hzo, by omega, by omega, Or.inl (by omega)⟩
  exact swap_final_ranks ((isSwapPos_eval hi hnl).mpr hc)

theorem C3_side_by_side_witness :
    (finalSeq (sortRegions
      [⟨1, 0, 100, 0, 100, 0⟩, ⟨2, 200, 300, 0, 100, 0⟩])).getD 0 0 = 1 ∧
    (finalSeq (sortRegions
      [⟨1, 0, 100, 0, 100, 0⟩, ⟨2, 200, 300, 0, 100, 0⟩])).getD 1 0 = 0 :=
  C3_side_by_side [⟨1, 0, 100, 0, 100, 0⟩, ⟨2, 200, 300, 0, 100, 0⟩] 0
    (by decide) (by decide) (by decide) (by decide) (by decide) (by decide)
    (by decide) (by decide)

/-- C4 (counterexample): the claim says the second run performs zero
swaps. Taking the output of the engine on the C5 page (regions
A = bbox(0,0,400,200) and B = bbox(50,50,150,150), output order B then
A) as the input of a second run, the second run again sorts
geometrically and performs one swap, not zero. -/
theorem C4_counterexample :
    outputOrder [⟨1, 0, 400, 0, 200, 0⟩, ⟨2, 50, 150, 50, 150, 0⟩] =
      [⟨2, 50, 150, 50, 150, 0⟩, ⟨1, 0, 400, 0, 200, 0⟩] ∧
    swapCount [⟨2, 50, 150, 50, 150, 0⟩, ⟨1, 0, 400, 0, 200, 0⟩] = 1 := by
  decide

/-- C4 (amended): when no two regions share the full sort key, running
the engine on its own output yields the same assignment as the first
run, and the second run performs exactly the same swaps as the first
(the same swap count), not zero: the engine re-sorts geometrically and
repeats its work. -/
theorem C4_idempotent_output (l : List Region) (hk : KeysInj l) :
    pageOrder (outputOrder l) = pageOrder l ∧
    swapCount (outputOrder l) = swapCount l := by
  have hp : (outputOrder l).Perm l := outputOrder_perm l
  have hk' : KeysInj (outputOrder l) := fun a ha b hb =>
    hk a (hp.mem_iff.mp ha) b (hp.mem_iff.mp hb)
  have hs : sortRegions (outputOrder l) = sortRegions l :=
    sortRegions_eq_of_perm hp hk'
  refine ⟨?_, swapCount_eq_of_sort_eq hs⟩
  unfold pageOrder
  rw [hs]

theorem C4_idempotent_output_witness :
    pageOrder (outputOrder [⟨1, 0, 400, 0, 200, 0⟩, ⟨2, 50, 150, 50, 150, 0⟩]) =
      pageOrder [⟨1, 0, 400, 0, 200, 0⟩, ⟨2, 50, 150, 50, 150, 0⟩] ∧
    swapCount (outputOrder [⟨1, 0, 400, 0, 200, 0⟩, ⟨2, 50, 150, 50, 150, 0⟩]) =
      swapCount [⟨1, 0, 400, 0, 200, 0⟩, ⟨2, 50, 150, 50, 150, 0⟩] :=
  C4_idempotent_output [⟨1, 0, 400, 0, 200, 0⟩, ⟨2, 50, 150, 50, 150, 0⟩]
    (by decide)

/-- C5: for the concrete two-region page with A = bbox(0,0,400,200) and
B = bbox(50,50,150,150), both on the left side (0), the initial sort
places A before B, the swap rule fires, and the final assignment gives
B the order 0 and A the order 1. -/
theorem C5_concrete_containment :
    sortRegions [⟨1, 0, 400, 0, 200, 0⟩, ⟨2, 50, 150, 50, 150, 0⟩] =
      [⟨1, 0, 400, 0, 200, 0⟩, ⟨2, 50, 150, 50, 150, 0⟩] ∧
    pageOrder [⟨1, 0, 400, 0, 200, 0⟩, ⟨2, 50, 150, 50, 150, 0⟩] =
      [(⟨1, 0, 400, 0, 200, 0⟩, 1), (⟨2, 50, 150, 50, 150, 0⟩, 0)] := by
  decide

/-- C6: a swap requires equal page sides (two adjacent regions with
different sides never swap), and in the final assignment every region
on side 0 (left) receives a smaller `sequential_order` than every
region on side 1 (right). -/
theorem C6_cross_side_invariant :
    (∀ (regs : List Region) (i : Nat), isSwapPos regs i = true →
      (regs.getD i default).page_side = (regs.getD (i + 1) default).page_side) ∧
    (∀ (l : List Region) (p q : Region) (kp kq : Nat),
      (p, kp) ∈ pageOrder l → (q, kq) ∈ pageOrder l →
      p.page_side = 0 → q.page_side = 1 → kp < kq) := by
  constructor
  · intro regs i h
    exact (isSwapPos_cond h).1
  · intro l p q kp kq hp hq hp0 hq1
    obtain ⟨a, ha, hap, hka⟩ := pageOrder_entry hp
    obtain ⟨b, hb, hbq, hkb⟩ := pageOrder_entry hq
    have hsa : ((sortRegions l).getD (targetRank (sortRegions l) a)
        default).page_side = 0 := by
      rw [targetRank_side, hap]
      exact hp0
    have hsb : ((sortRegions l).getD (targetRank (sortRegions l) b)
        default).page_side = 1 := by
      rw [targetRank_side, hbq]
      exact hq1
    by_contra hcon
    push_neg at hcon
    have hka2 : kp = targetRank (sortRegions l) a := hka
    have hkb2 : kq = targetRank (sortRegions l) b := hkb
    rw [hka2, hkb2] at hcon
    have hmono := sorted_side_mono (targetRank_lt ha) hcon
    rw [hsa, hsb] at hmono
    omega

theorem C6_cross_side_invariant_witness : (0 : Nat) < 1 :=
  C6_cross_side_invariant.2 [⟨1, 0, 10, 0, 10, 0⟩, ⟨2, 20, 30, 0, 10, 1⟩]
    ⟨1, 0, 10, 0, 10, 0⟩ ⟨2, 20, 30, 0, 10, 1⟩ 0 1
    (by decide) (by decide) rfl rfl

/-- C7 (counterexample): the claim says the final mapping from region id
to `sequential_order` is independent of the insertion order. With two
regions of identical geometry (same bbox, same side) and different ids,
permuting the input list permutes the stable-sorted order, and the id 1
region receives order 0 in one run and order 1 in the other: the
mappings differ. -/
theorem C7_counterexample :
    rankOf (pageOrder [⟨1, 0, 10, 0, 10, 0⟩, ⟨2, 0, 10, 0, 10, 0⟩]) 1 =
      some 0 ∧
    rankOf (pageOrder [⟨2, 0, 10, 0, 10, 0⟩, ⟨1, 0, 10, 0, 10, 0⟩]) 1 =
      some 1 := by
  decide

/-- C7 (amended): when no two regions share the full sort key
(`page_side`, `y_min`, `x_min`), the result of the engine is identical
for any insertion order of the same region set. -/
theorem C7_deterministic (l l2 : List Region) (hp : l.Perm l2)
    (hk : KeysInj l) : pageOrder l2 = pageOrder l :=
  (pageOrder_eq_of_perm hp hk).symm

theorem C7_deterministic_witness :
    pageOrder [⟨2, 50, 150, 50, 150, 0⟩, ⟨1, 0, 400, 0, 200, 0⟩] =
      pageOrder [⟨1, 0, 400, 0, 200, 0⟩, ⟨2, 50, 150, 50, 150, 0⟩] :=
  C7_deterministic [⟨1, 0, 400, 0, 200, 0⟩, ⟨2, 50, 150, 50, 150, 0⟩]
    [⟨2, 50, 150, 50, 150, 0⟩, ⟨1, 0, 400, 0, 200, 0⟩]
    (by decide) (by decide)

/-- C8 (counterexample): the claim says an empty point list is fatal
only for that single region and the page continues with the remaining
regions. In the code the ValueError raised by `min()` on the empty
sequence is never caught: on a page whose first region has an empty
point list and whose second region is valid, extraction of the whole
page fails and no features of the second region are produced. -/
theorem C8_counterexample :
    extractAll 0 [[], [((0 : Int), (0 : Int)), (10, 10)]] =
      Except.error ExtractErr.emptyPoints := rfl

/-- C8 (amended): a region with an empty point list makes feature
extraction fail, and the failure aborts extraction of the entire page:
a page containing such a region never produces a successful result, so
the remaining regions are not processed (no per-region skip, no
warning, no continuation). -/
theorem C8_empty_aborts_page (bookfold_centre : ℚ)
    (rs : List (List (Int × Int))) (h : [] ∈ rs) :
    (extractAll bookfold_centre rs).isOk = false := by
  induction rs with
  | nil => cases h
  | cons ps rest ih =>
    rcases List.mem_cons.mp h with rfl | hmem
    · rfl
    · unfold extractAll
      cases hr : extractRegion bookfold_centre ps with
      | error e => rfl
      | ok f =>
        cases ha : extractAll bookfold_centre rest with
        | error e => rfl
        | ok fs =>
          have := ih hmem
          rw [ha] at this
          cases this

theorem C8_empty_aborts_page_witness :
    (extractAll 0 [[], [((0 : Int), (0 : Int)), (10, 10)]]).isOk = false :=
  C8_empty_aborts_page 0 [[], [((0 : Int), (0 : Int)), (10, 10)]] (by decide)

/-- C9: the aspect ratio of line 69 divides width by height with no
guard: the concrete polygon [(0,5), (10,5)] is non-empty, satisfies the
bounding box invariant (its `y_min` and `y_max` are both 5), and its
extraction fails with the zero-division error, so extraction cannot
return a result for it. -/
theorem C9_zero_height_division :
    ([((0 : Int), (5 : Int)), (10, 5)] ≠ ([] : List (Int × Int))) ∧
    (5 : Int) ≤ 5 ∧
    extractRegion 0 [((0 : Int), (5 : Int)), (10, 5)] =
      Except.error ExtractErr.zeroHeight :=
  ⟨by decide, by decide, rfl⟩

/-- C10: for every input region list, the multiset of final
`sequential_order` values of the page is exactly `{0, ..., n-1}`: the
assignment is a permutation of the ranks, each rank occurring once. -/
theorem C10_rank_permutation (l : List Region) :
    ((pageOrder l).map Prod.snd).Perm (List.range l.length) := by
  have h : (pageOrder l).map Prod.snd = finalSeq (sortRegions l) := by
    unfold pageOrder
    apply List.map_snd_zip
    rw [finalSeq_length]
  rw [h]
  have hperm := finalSeq_perm (sortRegions l)
  rwa [sortRegions_length] at hperm
